import Mathlib

/-!
# Verification of the fxa-release core against its specification

Shallow embedding of the release tooling (version calculator, commit
classifier, release-state store, push negotiator, error handling) translated
from `src/utils.ts`, `src/commands/cut.ts` and `src/commands/push.ts`.
JavaScript strings are Lean `String`s, JavaScript numbers obtained from
`Number(...)` are modelled by `JSNum` (a natural number or `NaN`), fallible
code returns `Option`, and process-exiting code is modelled by explicit
result constructors.
-/

namespace FxaRelease

/-- The result of the JavaScript `Number(...)` conversion on a string:
either `NaN` or a numeric value.  The tags and ids handled by this tool are
nonnegative decimal integers, so the numeric payload is a `Nat`. -/
inductive JSNum where
  | nan : JSNum
  | num (n : Nat) : JSNum
deriving DecidableEq

/-- JavaScript `Number(s)` for a string `s`, restricted to the string shapes
this tool produces: the empty string converts to `0`, a nonempty all-digit
string converts to its decimal value, and every other string is modelled as
`NaN` (which is what JavaScript returns for the non-numeric components the
claims are about; numeric forms with signs, fractions, exponents or blanks
never occur in version tags or timestamp ids). -/
def jsNumber (s : String) : JSNum :=
  if s.data.isEmpty then .num 0
  else if s.data.all (fun c => c.isDigit) then
    .num (s.data.foldl (fun n c => n * 10 + (c.toNat - 48)) 0)
  else .nan

/-- JavaScript `String(v)` / template interpolation of a `JSNum`. -/
def jsStr : JSNum → String
  | .nan => "NaN"
  | .num n => toString n

/-- Addition of a constant to a `JSNum`: `NaN` propagates. -/
def jsAddNat : JSNum → Nat → JSNum
  | .nan, _ => .nan
  | .num n, k => .num (n + k)

/-- JavaScript `s.split(sep)` for a single-character separator, on character
lists: every occurrence splits, empty parts are kept, and the empty string
yields one empty part.  (Structural recursion so that proofs can evaluate
it; `String.splitOn` is well-founded and does not reduce.) -/
def splitOnCharAux (sep : Char) : List Char → List Char → List (List Char)
  | [], acc => [acc.reverse]
  | c :: cs, acc =>
    if c = sep then acc.reverse :: splitOnCharAux sep cs []
    else splitOnCharAux sep cs (c :: acc)

/-- JavaScript `s.split(sep)` for a single-character separator. -/
def jsSplitChar (sep : Char) (s : String) : List String :=
  (splitOnCharAux sep s.data []).map (fun l => ⟨l⟩)

/-- Whitespace as trimmed by JavaScript `String.prototype.trim` (restricted
to the ASCII whitespace that can occur in commit logs). -/
def isJsSpace (c : Char) : Bool :=
  c = ' ' ∨ c = '\t' ∨ c = '\n' ∨ c = '\r'

/-- JavaScript `s.trim()`. -/
def jsTrim (s : String) : String :=
  ⟨((s.data.dropWhile isJsSpace).reverse.dropWhile isJsSpace).reverse⟩

/-- Removes the first occurrence of a character from a character list, as
JavaScript `s.replace(c, "")` does for a single-character pattern. -/
def removeFirstChar (c : Char) : List Char → List Char
  | [] => []
  | x :: xs => if x = c then xs else x :: removeFirstChar c xs

/-- JavaScript `value.replace("v", "")`: drop the first `v`, if any. -/
def jsReplaceFirstV (s : String) : String :=
  ⟨removeFirstChar 'v' s.data⟩

/-- The record produced by `parseVersion` in `src/utils.ts`: the three
components of a version tag converted with `Number`. -/
structure ParsedVersion where
  major : JSNum
  train : JSNum
  patch : JSNum
deriving DecidableEq

/-- `parseVersion` from `src/utils.ts`: drop the first `v`, split on dots,
convert each part with `Number`, and assert that the first three parts are
present (`part != null` in JavaScript is false only for the `undefined`
produced by destructuring a too-short array; `NaN` passes the check).
`none` models the thrown assertion error. -/
def parseVersion (value : String) : Option ParsedVersion :=
  match (jsSplitChar '.' (jsReplaceFirstV value)).map jsNumber with
  | a :: t :: p :: _ => some ⟨a, t, p⟩
  | _ => none

/-- The `ReleaseType` union from `src/utils.ts`. -/
inductive ReleaseType where
  | train : ReleaseType
  | patch : ReleaseType
deriving DecidableEq

/-- The `ReleaseVersion` record from `src/commands/cut.ts`. -/
structure ReleaseVersion where
  major : JSNum
  train : JSNum
  patch : JSNum
  version : String
  tag : String
deriving DecidableEq

/-- `getTrainVersions` from `src/commands/cut.ts`: parse the last tag, build
`next` for a train release (train incremented, patch reset to zero), then
overwrite train, patch and the version string when the release type is
`patch`; `current` is the parsed triple formatted back.  `none` models the
assertion error thrown by `parseVersion`. -/
def getTrainVersions (tag : String) (optType : ReleaseType) :
    Option (ReleaseVersion × ReleaseVersion) :=
  match parseVersion tag with
  | none => none
  | some pv =>
    let nextVersion :=
      if optType = ReleaseType.patch then
        jsStr pv.major ++ "." ++ jsStr pv.train ++ "." ++ jsStr (jsAddNat pv.patch 1)
      else
        jsStr pv.major ++ "." ++ jsStr (jsAddNat pv.train 1) ++ ".0"
    let nextTrain := if optType = ReleaseType.patch then pv.train else jsAddNat pv.train 1
    let nextPatch := if optType = ReleaseType.patch then jsAddNat pv.patch 1 else JSNum.num 0
    let currentVersion :=
      jsStr pv.major ++ "." ++ jsStr pv.train ++ "." ++ jsStr pv.patch
    some (⟨pv.major, pv.train, pv.patch, currentVersion, "v" ++ currentVersion⟩,
          ⟨pv.major, nextTrain, nextPatch, nextVersion, "v" ++ nextVersion⟩)

/-- The keys of the `commitTypes` map in `src/utils.ts`: the recognized
conventional commit types, in their fixed display order. -/
def commitTypesKeys : List String :=
  ["feat", "fix", "docs", "style", "perf", "refactor", "revert", "test",
   "chore", "other"]

/-- The `ignoredCommitTypes` list from `src/utils.ts`. -/
def ignoredCommitTypes : List String := ["Merge", "Release"]

/-- The `PackageCommit` record from `src/utils.ts`.  The `type` field is
kept as the raw string the code assigns so that statements about which type
strings can appear in the output are expressible. -/
structure PackageCommit where
  original : String
  hash : String
  message : String
  type : String
  area : Option String
deriving DecidableEq

/-- JavaScript `original.split(/ (.+)/)` followed by destructuring into
`[hash, rest]`: the string is cut at the first space that has at least one
character after it; `none` models the case where the regex does not match,
leaving `rest` as `undefined` (any later use of `rest` then throws). -/
def splitFirstSpaceAux : List Char → List Char → Option (List Char × List Char)
  | _, [] => none
  | acc, c :: cs =>
    if c = ' ' ∧ cs ≠ [] then some (acc.reverse, cs)
    else splitFirstSpaceAux (c :: acc) cs

/-- Splits a log line into commit hash and subject, as
`original.split(/ (.+)/)` does. -/
def jsSplitFirstSpace (s : String) : Option (String × String) :=
  (splitFirstSpaceAux [] s.data).map (fun pr => (⟨pr.1⟩, ⟨pr.2⟩))

/-- Position `j` can close the area group of `rest.match(/^(.+)\((.+)\):(.+)$/)`
when the opening parenthesis sits at position `i`: the characters at `j` and
`j + 1` are ")" and ":", the area group `(i, j)` is nonempty, and at least
one message character follows. -/
def validJ (cs : List Char) (i j : Nat) : Bool :=
  decide (i + 2 ≤ j) && decide (cs.get? j = some ')') &&
    decide (cs.get? (j + 1) = some ':') && decide (j + 2 < cs.length)

/-- Position `i` can hold the opening parenthesis of the conventional-commit
pattern: the type group before it is nonempty, the character at `i` is "(",
and some closing position exists. -/
def validI (cs : List Char) (i : Nat) : Bool :=
  decide (1 ≤ i) && decide (cs.get? i = some '(') &&
    (List.range cs.length).any (fun j => validJ cs i j)

/-- The largest index below `n` satisfying `p`, if any. -/
def lastSatisfying (p : Nat → Bool) (n : Nat) : Option Nat :=
  ((List.range n).filter p).getLast?

/-- JavaScript `rest.match(/^(.+)\((.+)\):(.+)$/)`, with the greedy
backtracking choice the regex engine makes: the first group extends to the
last opening parenthesis that still allows a match, and the second group to
the last possible "):" after it.  Returns the three captured groups. -/
def matchConventional (s : String) : Option (String × String × String) :=
  match lastSatisfying (validI s.data) s.data.length with
  | none => none
  | some i =>
    match lastSatisfying (validJ s.data i) s.data.length with
    | none => none
    | some j =>
      some (⟨s.data.take i⟩, ⟨(s.data.drop (i + 1)).take (j - (i + 1))⟩,
            ⟨s.data.drop (j + 2)⟩)

/-- The property names a plain JavaScript object literal inherits from
`Object.prototype`: the `in` operator, which `parseCommits` uses for its
`type in commitTypes` test, also answers true for each of these. -/
def objectPrototypeKeys : List String :=
  ["constructor", "hasOwnProperty", "isPrototypeOf", "propertyIsEnumerable",
   "toLocaleString", "toString", "valueOf", "__proto__", "__defineGetter__",
   "__defineSetter__", "__lookupGetter__", "__lookupSetter__"]

/-- JavaScript `type in commitTypes` for the object literal `commitTypes`:
true for its ten own keys and, because `in` walks the prototype chain, for
every property name inherited from `Object.prototype`. -/
def jsInCommitTypes (ty : String) : Bool :=
  decide (ty ∈ commitTypesKeys) || decide (ty ∈ objectPrototypeKeys)

/-- One iteration of the `parseCommits` mapper in `src/utils.ts` on a single
log line.  The outer `Option` models the exception thrown when the line has
no subject (`rest` is `undefined`); the inner `Option` is `none` when the
commit is dropped because its type is in `ignoredCommitTypes`.  The
recognized-type test is the JavaScript `in` operator, so inherited
`Object.prototype` names also take the recognized branch. -/
def parseLine (original : String) : Option (Option PackageCommit) :=
  match jsSplitFirstSpace original with
  | none => none
  | some (hash, rest) =>
    match matchConventional rest with
    | some (ty, area, msg) =>
      if decide (ty ∈ ignoredCommitTypes) then some none
      else if jsInCommitTypes ty then
        some (some ⟨original, hash, jsTrim msg, ty, some area⟩)
      else some (some ⟨original, hash, rest, "other", none⟩)
    | none => some (some ⟨original, hash, rest, "other", none⟩)

/-- The map-then-filter of `parseCommits` fused into one recursion: dropped
commits (the `null` entries) are removed, and an exception on any line
aborts the whole call. -/
def parseLines : List String → Option (List PackageCommit)
  | [] => some []
  | l :: ls =>
    match parseLine l, parseLines ls with
    | some (some c), some rest => some (c :: rest)
    | some none, some rest => some rest
    | _, _ => none

/-- `parseCommits` from `src/utils.ts`: an input that is empty after
trimming yields no commits; otherwise the input is split into lines and
each line classified. -/
def parseCommits (input : String) : Option (List PackageCommit) :=
  if (jsTrim input).length = 0 then some []
  else parseLines (jsSplitChar '\n' input)

/-- An element read from a list position is a member of the list. -/
theorem mem_of_get_eq_some {α : Type} {l : List α} {n : Nat} {a : α}
    (h : l.get? n = some a) : a ∈ l := by
  induction l generalizing n with
  | nil => simp [List.get?] at h
  | cons x xs ih =>
    cases n with
    | zero => simp [List.get?] at h; simp [h]
    | succ m => exact List.mem_cons_of_mem x (ih h)

/-- Every commit kept by `parseLine` carries a type outside
`ignoredCommitTypes`: the ignored branch drops the commit before any type
is assigned, the recognized branch copies the matched type only after that
check failed, and every other branch writes "other". -/
theorem parseLine_type_not_ignored (l : String) (c : PackageCommit)
    (h : parseLine l = some (some c)) :
    c.type ∉ ignoredCommitTypes := by
  unfold parseLine at h
  split at h
  · exact absurd h (by simp)
  · split at h
    · split at h
      · exact absurd h (by simp)
      · split at h
        · rename_i ty area msg hig hmem
          simp only [Option.some.injEq] at h
          subst h
          simpa using hig
        · simp only [Option.some.injEq] at h
          subst h
          simp [ignoredCommitTypes]
    · simp only [Option.some.injEq] at h
      subst h
      simp [ignoredCommitTypes]

/-- Every commit in the output of `parseLines` was produced by `parseLine`
on some input line. -/
theorem parseLines_mem (ls : List String) (out : List PackageCommit)
    (h : parseLines ls = some out) :
    ∀ c ∈ out, ∃ l, parseLine l = some (some c) := by
  induction ls generalizing out with
  | nil =>
    simp only [parseLines, Option.some.injEq] at h
    subst h
    intro c hc
    exact absurd hc (by simp)
  | cons l ls ih =>
    unfold parseLines at h
    split at h
    · rename_i c0 rest hline hrest
      simp only [Option.some.injEq] at h
      subst h
      intro c hc
      rcases List.mem_cons.mp hc with rfl | hmem
      · exact ⟨l, hline⟩
      · exact ih rest hrest c hmem
    · rename_i rest hline hrest
      simp only [Option.some.injEq] at h
      subst h
      intro c hc
      exact ih rest hrest c hc
    · exact absurd h (by simp)

/-- Claim C7 counterexample: the line "a1 toString(x): y" has the
unrecognized type string "toString", yet it is not classified as "other"
with the unmodified subject: the JavaScript `in` operator finds the
inherited `Object.prototype.toString`, so the program keeps the commit with
type "toString", the trimmed message and the area — refuting the claim that
every unrecognized type string is classified as "other". -/
theorem parseCommits_prototype_counterexample :
    parseCommits "a1 toString(x): y" =
      some [⟨"a1 toString(x): y", "a1", "y", "toString", some "x"⟩] := by
  decide

/-- Claim C7 amended: for every input log, no commit typed Merge or Release
appears in the output of `parseCommits`, regardless of its position; a line
whose matched type string is neither a key of `commitTypes` nor a property
name inherited from `Object.prototype` is classified as "other" with the
unmodified subject preserved as the message; but a matched type string that
names an inherited property (such as "toString") passes the JavaScript `in`
test and is kept with that very type string and the trimmed message. -/
theorem parseCommits_ignored_and_unrecognized :
    (∀ input out, parseCommits input = some out →
      ∀ c ∈ out, c.type ≠ "Merge" ∧ c.type ≠ "Release") ∧
    (∀ line hash subject ty area msg,
      jsSplitFirstSpace line = some (hash, subject) →
      matchConventional subject = some (ty, area, msg) →
      ty ∉ ignoredCommitTypes → ty ∉ commitTypesKeys → ty ∉ objectPrototypeKeys →
      parseLine line = some (some ⟨line, hash, subject, "other", none⟩)) ∧
    (∀ line hash subject ty area msg,
      jsSplitFirstSpace line = some (hash, subject) →
      matchConventional subject = some (ty, area, msg) →
      ty ∉ ignoredCommitTypes → ty ∈ objectPrototypeKeys →
      parseLine line = some (some ⟨line, hash, jsTrim msg, ty, some area⟩)) := by
  refine ⟨?_, ?_, ?_⟩
  · intro input out h c hc
    have hsrc : ∃ l, parseLine l = some (some c) := by
      unfold parseCommits at h
      split at h
      · simp only [Option.some.injEq] at h
        subst h
        exact absurd hc (by simp)
      · exact parseLines_mem _ out h c hc
    obtain ⟨l, hl⟩ := hsrc
    have hmem := parseLine_type_not_ignored l c hl
    constructor
    · intro he
      exact hmem (by rw [he]; decide)
    · intro he
      exact hmem (by rw [he]; decide)
  · intro line hash subject ty area msg hsplit hmatch hig hrec hproto
    have hin : jsInCommitTypes ty = false := by
      simp [jsInCommitTypes, hrec, hproto]
    unfold parseLine
    rw [hsplit]
    simp [hmatch, hig, hin]
  · intro line hash subject ty area msg hsplit hmatch hig hproto
    have hin : jsInCommitTypes ty = true := by
      simp [jsInCommitTypes, hproto]
    unfold parseLine
    rw [hsplit]
    simp [hmatch, hig, hin]

/-- Claim C7 amended witness: a log with a recognized commit, a Merge
commit and an unrecognized type (the Merge commit dropped, the unrecognized
one classified as "other" with its full subject), and the inherited-name
line "a1 toString(x): y" kept with type "toString". -/
theorem parseCommits_ignored_and_unrecognized_witness :
    parseCommits "a1 feat(auth): add x\nb2 Merge(x): y\nc3 Foo(bar): qux" =
      some [⟨"a1 feat(auth): add x", "a1", "add x", "feat", some "auth"⟩,
            ⟨"c3 Foo(bar): qux", "c3", "Foo(bar): qux", "other", none⟩] ∧
    (∀ c ∈ [PackageCommit.mk "a1 feat(auth): add x" "a1" "add x" "feat" (some "auth"),
            PackageCommit.mk "c3 Foo(bar): qux" "c3" "Foo(bar): qux" "other" none],
      c.type ≠ "Merge" ∧ c.type ≠ "Release") ∧
    parseLine "c3 Foo(bar): qux" =
      some (some ⟨"c3 Foo(bar): qux", "c3", "Foo(bar): qux", "other", none⟩) ∧
    parseLine "a1 toString(x): y" =
      some (some ⟨"a1 toString(x): y", "a1", "y", "toString", some "x"⟩) :=
  ⟨by decide,
   parseCommits_ignored_and_unrecognized.1
     "a1 feat(auth): add x\nb2 Merge(x): y\nc3 Foo(bar): qux"
     [⟨"a1 feat(auth): add x", "a1", "add x", "feat", some "auth"⟩,
      ⟨"c3 Foo(bar): qux", "c3", "Foo(bar): qux", "other", none⟩] (by decide),
   parseCommits_ignored_and_unrecognized.2.1 "c3 Foo(bar): qux" "c3" "Foo(bar): qux"
     "Foo" "bar" " qux" (by decide) (by decide) (by decide) (by decide) (by decide),
   parseCommits_ignored_and_unrecognized.2.2 "a1 toString(x): y" "a1" "toString(x): y"
     "toString" "x" " y" (by decide) (by decide) (by decide) (by decide)⟩

/-- Claim C10: a subject with no parenthesized area (for example
"fix: handle null") is not matched by the conventional pattern, whose regex
requires parentheses, and the line is classified as type "other" with the
full subject as the message and no area, even when the leading word is a
recognized conventional type. -/
theorem parseLine_no_area_is_other (line hash subject : String)
    (hsplit : jsSplitFirstSpace line = some (hash, subject))
    (hparen : '(' ∉ subject.data) :
    parseLine line = some (some ⟨line, hash, subject, "other", none⟩) := by
  have hfilter : (List.range subject.data.length).filter (validI subject.data) = [] := by
    rw [List.filter_eq_nil_iff]
    intro i _ hvalid
    have hget : subject.data.get? i = some '(' := by
      have := (Bool.and_eq_true _ _).mp ((Bool.and_eq_true _ _).mp hvalid).1
      simpa using this.2
    exact hparen (mem_of_get_eq_some hget)
  have hlast : lastSatisfying (validI subject.data) subject.data.length = none := by
    unfold lastSatisfying
    rw [hfilter]
    rfl
  have hm : matchConventional subject = none := by
    unfold matchConventional
    rw [hlast]
  unfold parseLine
  rw [hsplit]
  simp [hm]

/-- Claim C10 witness: the line "d4 fix: handle null" has a recognized type
"fix" but no parenthesized area, and is classified as "other" with the full
subject as the message. -/
theorem parseLine_no_area_is_other_witness :
    jsSplitFirstSpace "d4 fix: handle null" = some ("d4", "fix: handle null") ∧
    '(' ∉ "fix: handle null".data ∧
    parseLine "d4 fix: handle null" =
      some (some ⟨"d4 fix: handle null", "d4", "fix: handle null", "other", none⟩) :=
  ⟨by decide, by decide,
   parseLine_no_area_is_other "d4 fix: handle null" "d4" "fix: handle null"
     (by decide) (by decide)⟩

/-- JSON values as produced by `JSON.stringify`/`JSON.parse` for the release
records this tool persists: strings, arrays and objects suffice. -/
inductive Json where
  | null : Json
  | str (s : String) : Json
  | arr (xs : List Json) : Json
  | obj (fields : List (String × Json)) : Json

/-- The `ReleaseData` record from `src/utils.ts` (second, current revision):
the six fields persisted for a pending release. -/
structure ReleaseData where
  train : String
  patch : String
  type : ReleaseType
  branch : String
  tag : String
  modifiedPackages : List String
deriving DecidableEq

/-- Serialization of a `ReleaseType` into its JSON string. -/
def releaseTypeString : ReleaseType → String
  | .train => "train"
  | .patch => "patch"

/-- Parsing a `ReleaseType` back from its JSON string. -/
def releaseTypeOfString (s : String) : Option ReleaseType :=
  if s = "train" then some ReleaseType.train
  else if s = "patch" then some ReleaseType.patch
  else none

/-- The object written by `JSON.stringify({train, patch, type, branch, tag,
modifiedPackages})` in `confirmPush`. -/
def encodeReleaseData (r : ReleaseData) : Json :=
  .obj [("train", .str r.train), ("patch", .str r.patch),
        ("type", .str (releaseTypeString r.type)), ("branch", .str r.branch),
        ("tag", .str r.tag), ("modifiedPackages", .arr (r.modifiedPackages.map .str))]

/-- Reads a string field of a parsed record. -/
def jsonString : Json → Option String
  | .str s => some s
  | _ => none

/-- Reads each element of a JSON array as a string, failing on the first
non-string element. -/
def jsonStrings : List Json → Option (List String)
  | [] => some []
  | j :: js =>
    match jsonString j, jsonStrings js with
    | some s, some rest => some (s :: rest)
    | _, _ => none

/-- Reads a string-array field of a parsed record. -/
def jsonStringList : Json → Option (List String)
  | .arr xs => jsonStrings xs
  | _ => none

/-- Looks a field up in a parsed JSON object. -/
def jsonField : List (String × Json) → String → Option Json
  | [], _ => none
  | (k, v) :: rest, key => if k = key then some v else jsonField rest key

/-- The destructuring `const {train, patch, type, branch, tag,
modifiedPackages} = response` performed by the push command on the parsed
release file. -/
def decodeReleaseData (j : Json) : Option ReleaseData :=
  match j with
  | .obj fields =>
    match jsonField fields "train", jsonField fields "patch",
        jsonField fields "type", jsonField fields "branch",
        jsonField fields "tag", jsonField fields "modifiedPackages" with
    | some jtrain, some jpatch, some jtype, some jbranch, some jtag, some jmods =>
      match jsonString jtrain, jsonString jpatch,
          (jsonString jtype).bind releaseTypeOfString, jsonString jbranch,
          jsonString jtag, jsonStringList jmods with
      | some train, some patch, some ty, some branch, some tag, some mods =>
        some ⟨train, patch, ty, branch, tag, mods⟩
      | _, _, _, _, _, _ => none
    | _, _, _, _, _, _ => none
  | _ => none

/-- The on-disk release store: one entry per `{id}.json` file in the
releases directory, holding the file's parsed JSON content. -/
abbrev Store := List (String × Json)

/-- The ids of the files currently in the store, as
`retrieveAvailableReleases` lists them from the directory. -/
def storeIds (store : Store) : List String := store.map (fun kv => kv.1)

/-- `writeFileSync(createReleaseFilePath(id), JSON.stringify(record))`:
saving a release record under an id. -/
def saveRelease (store : Store) (id : String) (r : ReleaseData) : Store :=
  (id, encodeReleaseData r) :: store

/-- Reading the file for an id, `none` when no such file exists. -/
def lookupStore : Store → String → Option Json
  | [], _ => none
  | (k, v) :: rest, id => if k = id then some v else lookupStore rest id

/-- `unlinkSync(createReleaseFilePath(id))`: removing the file for an id. -/
def deleteRelease (store : Store) (id : String) : Store :=
  store.filter (fun kv => decide (kv.1 ≠ id))

/-- `retrieveReleaseData` from `src/commands/push.ts` followed by the
destructuring of its result: find the saved file for the id, parse it, and
read the record fields.  `none` models the `Could not find saved Release
file` error (or unparseable content). -/
def retrieveRecord (store : Store) (id : String) : Option ReleaseData :=
  (lookupStore store id).bind decodeReleaseData

/-- The `twoWeeks` constant. Modelled from the spec: the constant is
imported from `src/constants.ts` but the revision of that file in the
surveyed tree predates it; the spec fixes the expiry window at 14 days,
here in milliseconds. -/
def twoWeeks : Int := 14 * 24 * 60 * 60 * 1000

/-- JavaScript `x > y` where `y` came from a unary-plus conversion:
comparison with `NaN` is false. -/
def jsGtNum (x : Int) (v : JSNum) : Bool :=
  match v with
  | .nan => false
  | .num n => decide (x > (n : Int))

/-- `removeOldReleases` from `src/utils.ts`: delete every stored release
whose filename id, converted with unary plus, is numerically below the
timestamp of two weeks ago. -/
def removeOldReleases (now : Int) (store : Store) : Store :=
  store.filter (fun kv => !(jsGtNum (now - twoWeeks) (jsNumber kv.1)))

/-- An operation on the release store between a save and a retrieve. -/
inductive StoreOp where
  | save (id : String) (r : ReleaseData) : StoreOp
  | delete (id : String) : StoreOp
  | sweep (now : Int) : StoreOp

/-- Applying one store operation. -/
def applyOp (store : Store) : StoreOp → Store
  | .save id r => saveRelease store id r
  | .delete id => deleteRelease store id
  | .sweep now => removeOldReleases now store

/-- Applying a sequence of store operations in order. -/
def applyOps (store : Store) (ops : List StoreOp) : Store :=
  ops.foldl applyOp store

/-- The operation leaves the record stored under `id` alone: it writes or
deletes a different id, and a sweep happens before the id's expiry. -/
def opPreserves (id : String) : StoreOp → Prop
  | .save id' _ => id' ≠ id
  | .delete id' => id' ≠ id
  | .sweep now => jsGtNum (now - twoWeeks) (jsNumber id) = false

instance (id : String) (op : StoreOp) : Decidable (opPreserves id op) := by
  cases op <;> simp only [opPreserves] <;> infer_instance

/-- Decoding a list of JSON strings recovers the original string list. -/
theorem jsonStrings_map_str (l : List String) :
    jsonStrings (l.map Json.str) = some l := by
  induction l with
  | nil => rfl
  | cons x xs ih => simp [jsonStrings, jsonString, ih]

/-- Parsing a freshly serialized release record recovers it field for
field: `JSON.parse` inverts `JSON.stringify` on these records. -/
theorem decode_encode (r : ReleaseData) :
    decodeReleaseData (encodeReleaseData r) = some r := by
  cases r with
  | mk train patch ty branch tag mods =>
    cases ty <;>
      simp +decide [decodeReleaseData, encodeReleaseData, jsonField, jsonString,
        jsonStringList, jsonStrings_map_str, releaseTypeString,
        releaseTypeOfString]

/-- Filtering the store with a predicate that keeps every entry of a given
id does not change what is found under that id. -/
theorem lookupStore_filter (store : Store) (p : String × Json → Bool) (id : String)
    (hp : ∀ v, p (id, v) = true) :
    lookupStore (store.filter p) id = lookupStore store id := by
  induction store with
  | nil => rfl
  | cons kv rest ih =>
    obtain ⟨k, v⟩ := kv
    by_cases hk : k = id
    · subst hk
      rw [List.filter_cons_of_pos (hp v)]
      simp [lookupStore]
    · cases hpk : p (k, v) with
      | true =>
        rw [List.filter_cons_of_pos hpk]
        simpa [lookupStore, hk] using ih
      | false =>
        rw [List.filter_cons_of_neg (by simp [hpk])]
        simpa [lookupStore, hk] using ih

/-- A store operation that preserves an id leaves its lookup unchanged. -/
theorem lookupStore_applyOp (store : Store) (op : StoreOp) (id : String)
    (h : opPreserves id op) :
    lookupStore (applyOp store op) id = lookupStore store id := by
  cases op with
  | save id' r =>
    simp only [opPreserves] at h
    simp [applyOp, saveRelease, lookupStore, h]
  | delete id' =>
    simp only [opPreserves] at h
    exact lookupStore_filter store _ id (fun v => by simp [Ne.symm h])
  | sweep now =>
    simp only [opPreserves] at h
    exact lookupStore_filter store _ id (fun v => by simp [h])

/-- A sequence of store operations that all preserve an id leaves its
lookup unchanged. -/
theorem lookupStore_applyOps (store : Store) (ops : List StoreOp) (id : String)
    (h : ∀ op ∈ ops, opPreserves id op) :
    lookupStore (applyOps store ops) id = lookupStore store id := by
  induction ops generalizing store with
  | nil => rfl
  | cons op ops ih =>
    have step : applyOps store (op :: ops) = applyOps (applyOp store op) ops := rfl
    rw [step, ih (applyOp store op) (fun o ho => h o (by simp [ho])),
      lookupStore_applyOp store op id (h op (by simp))]

/-- Claim C2: saving a release record and later retrieving it by the same
id returns a record equal to it field for field, provided no operation in
between wrote or deleted that id and no expiry sweep removed it. -/
theorem retrieveRecord_after_save (store : Store) (id : String) (r : ReleaseData)
    (ops : List StoreOp) (h : ∀ op ∈ ops, opPreserves id op) :
    retrieveRecord (applyOps (saveRelease store id r) ops) id = some r := by
  unfold retrieveRecord
  rw [lookupStore_applyOps _ _ _ h]
  simp [saveRelease, lookupStore, decode_encode]

/-- The record of Scenario C in the specification. -/
def sampleRelease : ReleaseData :=
  ⟨"4", "0", ReleaseType.train, "train-4", "v149.4.0", ["auth"]⟩

/-- Claim C2 witness: a record saved under a timestamp id survives an
unrelated delete and a sweep that predates its expiry, and is retrieved
field for field. -/
theorem retrieveRecord_after_save_witness :
    (∀ op ∈ [StoreOp.delete "1600000000000", StoreOp.sweep 1700000000000],
      opPreserves "1700000000500" op) ∧
    retrieveRecord
      (applyOps (saveRelease [] "1700000000500" sampleRelease)
        [StoreOp.delete "1600000000000", StoreOp.sweep 1700000000000])
      "1700000000500" = some sampleRelease :=
  ⟨by decide,
   retrieveRecord_after_save [] "1700000000500" sampleRelease
     [StoreOp.delete "1600000000000", StoreOp.sweep 1700000000000] (by decide)⟩

/-- Claim C1: for every well-formed last tag vA.T.P, `getTrainVersions`
returns current = {A, T, P, "A.T.P", "vA.T.P"}; for kind train, next =
{A, T+1, 0} with version "A.(T+1).0" and tag "v" ++ version; for kind
patch, next = {A, T, P+1}; and in every returned `ReleaseVersion` the
version is "{major}.{train}.{patch}" and the tag is "v" ++ version. -/
theorem getTrainVersions_wellFormed (tag : String) (a t p : Nat) (k : ReleaseType)
    (h : parseVersion tag = some ⟨JSNum.num a, JSNum.num t, JSNum.num p⟩) :
    getTrainVersions tag k = some
      (⟨JSNum.num a, JSNum.num t, JSNum.num p,
        toString a ++ "." ++ toString t ++ "." ++ toString p,
        "v" ++ (toString a ++ "." ++ toString t ++ "." ++ toString p)⟩,
       if k = ReleaseType.patch then
         ⟨JSNum.num a, JSNum.num t, JSNum.num (p + 1),
          toString a ++ "." ++ toString t ++ "." ++ toString (p + 1),
          "v" ++ (toString a ++ "." ++ toString t ++ "." ++ toString (p + 1))⟩
       else
         ⟨JSNum.num a, JSNum.num (t + 1), JSNum.num 0,
          toString a ++ "." ++ toString (t + 1) ++ ".0",
          "v" ++ (toString a ++ "." ++ toString (t + 1) ++ ".0")⟩) := by
  unfold getTrainVersions
  rw [h]
  cases k <;> simp [jsStr, jsAddNat]

/-- Claim C1 witness: Scenario A of the specification, lastTag "v149.3.0"
with kind train yields next version 149.4.0 and tag v149.4.0. -/
theorem getTrainVersions_wellFormed_witness :
    parseVersion "v149.3.0" = some ⟨JSNum.num 149, JSNum.num 3, JSNum.num 0⟩ ∧
    getTrainVersions "v149.3.0" ReleaseType.train = some
      (⟨JSNum.num 149, JSNum.num 3, JSNum.num 0, "149.3.0", "v149.3.0"⟩,
       ⟨JSNum.num 149, JSNum.num 4, JSNum.num 0, "149.4.0", "v149.4.0"⟩) :=
  ⟨by decide,
   (getTrainVersions_wellFormed "v149.3.0" 149 3 0 ReleaseType.train (by decide)).trans
     (by decide)⟩

/-- Claim C6 counterexample: the tag "vx.2.3" has a non-numeric first
component, yet `parseVersion` succeeds (JavaScript `Number("x")` is `NaN`
and `NaN != null` holds, so the assertion does not fire), contradicting the
claim that a non-numeric component makes `parseVersion` fail. -/
theorem parseVersion_nonNumeric_counterexample :
    parseVersion "vx.2.3" = some ⟨JSNum.nan, JSNum.num 2, JSNum.num 3⟩ := by
  decide

/-- Claim C6 amended: `parseVersion` fails exactly when the tag (after
removing the first "v") has fewer than three dot-separated components;
components that do not parse as numbers become `NaN` without failing. -/
theorem parseVersion_none_iff (value : String) :
    parseVersion value = none ↔
      (jsSplitChar '.' (jsReplaceFirstV value)).length < 3 := by
  generalize h : jsSplitChar '.' (jsReplaceFirstV value) = l
  rcases l with _ | ⟨a, _ | ⟨b, _ | ⟨c, rest⟩⟩⟩ <;> simp [parseVersion, h]

/-- The observable result of `spawnSync` for one command: whether spawning
itself failed, and the text on the two output streams. -/
structure ExecOutcome where
  spawnError : Bool
  stderr : String
  stdout : String

/-- The environment a run executes against: what each git command would
produce if spawned. -/
abbrev Env := String → ExecOutcome

/-- The result of one call to `execute` in `src/utils.ts`: skipped in a dry
run, fatal via `logError` (which exits the process), or the trimmed
standard output. -/
inductive ExecResult where
  | skipped : ExecResult
  | fatal : ExecResult
  | ok (out : String) : ExecResult
deriving DecidableEq

/-- `execute(command, description, { drySkip: true })` as `confirmPush`
calls it: skip when dry, exit fatally on a spawn error, exit fatally on any
stderr output (no `onStedError` handler is passed for the push commands),
and otherwise return stdout. -/
def executePush (env : Env) (dry : Bool) (cmd : String) : ExecResult :=
  if dry then .skipped
  else if (env cmd).spawnError then .fatal
  else if (env cmd).stderr.length != 0 then .fatal
  else .ok (env cmd).stdout

/-- Whether `execute` would abort the process on this command: a spawn
error or any stderr output. -/
def cmdFails (env : Env) (cmd : String) : Bool :=
  (env cmd).spawnError || ((env cmd).stderr.length != 0)

/-- How one `confirmPush` invocation ended. -/
inductive PushOutcome where
  | dryStop : PushOutcome
  | declined : PushOutcome
  | fatalExit : PushOutcome
  | pushed : PushOutcome
deriving DecidableEq

/-- What one `confirmPush` invocation leaves behind: the release store, the
push commands actually spawned in order, and how the run ended. -/
structure ConfirmResult where
  store : Store
  executed : List String
  outcome : PushOutcome

/-- The branch-push command `git push {remote} {branch}:{branch}`. -/
def pushCommitCommand (remote branch : String) : String :=
  "git push " ++ remote ++ " " ++ branch ++ ":" ++ branch

/-- The tag-push command `git push {remote} {tag}`. -/
def pushTagCommand (remote tag : String) : String :=
  "git push " ++ remote ++ " " ++ tag

/-- The id whose file `confirmPush` unlinks when `save` is not set: the
`--id` argument of a resumed push; a missing argument is the JavaScript
`undefined`, which stringifies to "undefined" in the file path. -/
def resumeId (id0 : Option String) : String :=
  match id0 with
  | some i => i
  | none => "undefined"

/-- `confirmPush` from `src/utils.ts` (second, current revision).  In a dry
run it returns before prompting or saving.  Otherwise, when `save` is set
the record is written under the fresh timestamp id `nowId` before the
prompt.  A confirmation other than the literal "push" returns with the
store as it stands.  On "push" the branch-push and tag-push commands are
spawned in order as separate invocations; a failure of either exits the
process via `logError`, and only after both succeed is the file for the
current id unlinked. -/
def confirmPush (env : Env) (remote : String) (dry : Bool) (store : Store)
    (data : ReleaseData) (save : Bool) (id0 : Option String) (nowId : String)
    (confirm : String) : ConfirmResult :=
  let cmd1 := pushCommitCommand remote data.branch
  let cmd2 := pushTagCommand remote data.tag
  if dry then ⟨store, [], .dryStop⟩
  else
    let id : String := if save then nowId else resumeId id0
    let store1 := if save then saveRelease store nowId data else store
    if confirm != "push" then ⟨store1, [], .declined⟩
    else
      match executePush env dry cmd1 with
      | .fatal => ⟨store1, [cmd1], .fatalExit⟩
      | _ =>
        match executePush env dry cmd2 with
        | .fatal => ⟨store1, [cmd1, cmd2], .fatalExit⟩
        | _ => ⟨deleteRelease store1 id, [cmd1, cmd2], .pushed⟩

/-- Outside a dry run, `execute` is fatal exactly when the command fails,
and otherwise returns the command's stdout. -/
theorem executePush_not_dry (env : Env) (cmd : String) :
    executePush env false cmd =
      if cmdFails env cmd then ExecResult.fatal else ExecResult.ok (env cmd).stdout := by
  unfold executePush cmdFails
  cases h1 : (env cmd).spawnError <;>
    cases h2 : ((env cmd).stderr.length != 0) <;> simp [h1, h2]

/-- Deleting an id removes every file stored under it. -/
theorem lookupStore_delete_self (store : Store) (id : String) :
    lookupStore (deleteRelease store id) id = none := by
  induction store with
  | nil => rfl
  | cons kv rest ih =>
    obtain ⟨k, v⟩ := kv
    rw [deleteRelease, List.filter_cons]
    by_cases hk : k = id
    · simpa [hk, deleteRelease] using ih
    · simpa [hk, lookupStore, deleteRelease] using ih

/-- An id with no stored file is absent from the listed ids. -/
theorem not_mem_storeIds_of_lookup_none (store : Store) (id : String)
    (h : lookupStore store id = none) : id ∉ storeIds store := by
  induction store with
  | nil => simp [storeIds]
  | cons kv rest ih =>
    obtain ⟨k, v⟩ := kv
    by_cases hk : k = id
    · simp [lookupStore, hk] at h
    · simp only [lookupStore, if_neg hk] at h
      simp only [storeIds, List.map_cons, List.mem_cons]
      rintro (he | he)
      · exact hk he.symm
      · exact ih h he

/-- Case analysis of the non-dry "push" path of `confirmPush`: which
commands are spawned, how the run ends, and what happens to the store, for
each combination of push failures. -/
theorem confirmPush_push_run (env : Env) (remote : String) (store : Store)
    (data : ReleaseData) (save : Bool) (id0 : Option String) (nowId : String) :
    (cmdFails env (pushCommitCommand remote data.branch) = true →
      confirmPush env remote false store data save id0 nowId "push" =
        ⟨if save then saveRelease store nowId data else store,
         [pushCommitCommand remote data.branch], PushOutcome.fatalExit⟩) ∧
    (cmdFails env (pushCommitCommand remote data.branch) = false →
      cmdFails env (pushTagCommand remote data.tag) = true →
      confirmPush env remote false store data save id0 nowId "push" =
        ⟨if save then saveRelease store nowId data else store,
         [pushCommitCommand remote data.branch, pushTagCommand remote data.tag],
         PushOutcome.fatalExit⟩) ∧
    (cmdFails env (pushCommitCommand remote data.branch) = false →
      cmdFails env (pushTagCommand remote data.tag) = false →
      confirmPush env remote false store data save id0 nowId "push" =
        ⟨deleteRelease (if save then saveRelease store nowId data else store)
           (if save then nowId else resumeId id0),
         [pushCommitCommand remote data.branch, pushTagCommand remote data.tag],
         PushOutcome.pushed⟩) := by
  refine ⟨fun h1 => ?_, fun h1 h2 => ?_, fun h1 h2 => ?_⟩
  · simp [confirmPush, executePush_not_dry, h1]
  · simp [confirmPush, executePush_not_dry, h1, h2]
  · simp [confirmPush, executePush_not_dry, h1, h2]

/-- Claim C3: when the confirmation input is exactly "push" (and the run is
not dry), the branch-push command and then the tag-push command are spawned
in that order as separate invocations; if the first fails the run exits
fatally after spawning only it, if the second fails the run exits fatally
after spawning both, and in both fatal cases the store — including any
record saved for this release earlier in the call — is left untouched;
only when both succeed is the record's file deleted. -/
theorem confirmPush_push_semantics (env : Env) (remote : String) (store : Store)
    (data : ReleaseData) (save : Bool) (id0 : Option String) (nowId : String) :
    (cmdFails env (pushCommitCommand remote data.branch) = true →
      confirmPush env remote false store data save id0 nowId "push" =
        ⟨if save then saveRelease store nowId data else store,
         [pushCommitCommand remote data.branch], PushOutcome.fatalExit⟩) ∧
    (cmdFails env (pushCommitCommand remote data.branch) = false →
      cmdFails env (pushTagCommand remote data.tag) = true →
      confirmPush env remote false store data save id0 nowId "push" =
        ⟨if save then saveRelease store nowId data else store,
         [pushCommitCommand remote data.branch, pushTagCommand remote data.tag],
         PushOutcome.fatalExit⟩) ∧
    (cmdFails env (pushCommitCommand remote data.branch) = false →
      cmdFails env (pushTagCommand remote data.tag) = false →
      confirmPush env remote false store data save id0 nowId "push" =
        ⟨deleteRelease (if save then saveRelease store nowId data else store)
           (if save then nowId else resumeId id0),
         [pushCommitCommand remote data.branch, pushTagCommand remote data.tag],
         PushOutcome.pushed⟩) :=
  confirmPush_push_run env remote store data save id0 nowId

/-- Claim C3 witness: Scenario D with the tag push failing — the commands
are spawned in order and the record saved in the same run is not deleted. -/
def envTagPushFails : Env := fun cmd =>
  if cmd = pushTagCommand "origin" "v149.4.0" then
    ⟨false, "error: failed to push some refs", ""⟩
  else ⟨false, "", ""⟩

/-- Claim C3 witness statement: with the branch push succeeding and the tag
push failing, both commands are spawned in order, the run exits fatally,
and the record stored under the fresh id remains in the store. -/
theorem confirmPush_push_semantics_witness :
    cmdFails envTagPushFails (pushCommitCommand "origin" "train-4") = false ∧
    cmdFails envTagPushFails (pushTagCommand "origin" "v149.4.0") = true ∧
    confirmPush envTagPushFails "origin" false [] sampleRelease true none
        "1700000000000" "push" =
      ⟨saveRelease [] "1700000000000" sampleRelease,
       [pushCommitCommand "origin" "train-4", pushTagCommand "origin" "v149.4.0"],
       PushOutcome.fatalExit⟩ :=
  ⟨by decide, by decide,
   (confirmPush_push_semantics envTagPushFails "origin" [] sampleRelease true none
     "1700000000000").2.1 (by decide) (by decide)⟩

/-- Claim C4: with `save` set and outside a dry run — if the confirmation
is exactly "push" and both pushes succeed, no file for the fresh id remains
in the store afterwards; with any other confirmation input, no push command
is spawned, exactly the one new file for the fresh id is added, and its
parsed content equals the input record field for field. -/
theorem confirmPush_save_semantics (env : Env) (remote : String) (store : Store)
    (data : ReleaseData) (id0 : Option String) (nowId : String) (confirm : String)
    (hfresh : lookupStore store nowId = none) :
    (confirm = "push" →
      cmdFails env (pushCommitCommand remote data.branch) = false →
      cmdFails env (pushTagCommand remote data.tag) = false →
      lookupStore
        (confirmPush env remote false store data true id0 nowId confirm).store
        nowId = none) ∧
    (confirm ≠ "push" →
      (confirmPush env remote false store data true id0 nowId confirm).executed = [] ∧
      nowId ∉ storeIds store ∧
      storeIds (confirmPush env remote false store data true id0 nowId confirm).store =
        nowId :: storeIds store ∧
      retrieveRecord
        (confirmPush env remote false store data true id0 nowId confirm).store
        nowId = some data) := by
  constructor
  · intro hc h1 h2
    subst hc
    have := (confirmPush_push_run env remote store data true id0 nowId).2.2 h1 h2
    rw [this]
    simpa using lookupStore_delete_self (saveRelease store nowId data) nowId
  · intro hc
    have hne : (confirm != "push") = true := by simpa using hc
    refine ⟨?_, not_mem_storeIds_of_lookup_none store nowId hfresh, ?_, ?_⟩ <;>
      simp [confirmPush, hne, saveRelease, storeIds, retrieveRecord, lookupStore,
        decode_encode]

/-- An environment in which every command spawns cleanly with no output. -/
def envAllOk : Env := fun _ => ⟨false, "", ""⟩

/-- Claim C4 witness: Scenario C — declining with "no" spawns nothing and
adds exactly one record, retrievable field for field. -/
theorem confirmPush_save_semantics_witness :
    lookupStore [] "1700000000000" = none ∧
    (confirmPush envAllOk "origin" false [] sampleRelease true none "1700000000000"
      "no").executed = [] ∧
    "1700000000000" ∉ storeIds [] ∧
    storeIds (confirmPush envAllOk "origin" false [] sampleRelease true none
      "1700000000000" "no").store = ["1700000000000"] ∧
    retrieveRecord (confirmPush envAllOk "origin" false [] sampleRelease true none
      "1700000000000" "no").store "1700000000000" = some sampleRelease :=
  ⟨rfl,
   (confirmPush_save_semantics envAllOk "origin" [] sampleRelease none
     "1700000000000" "no" rfl).2 (by decide)⟩

/-- The phases of `wrapCommand` in `src/utils.ts`, in the order its body
runs them: copy the options into the globals, remove expired releases,
print the dry-run notice, validate the invocation, run the wrapped command
function, and print the closing summary. -/
inductive Phase where
  | setGlobals : Phase
  | sweepExpired : Phase
  | dryNotice : Phase
  | validate : Phase
  | runCommand : Phase
  | complete : Phase
deriving DecidableEq

/-- The body of `wrapCommand` as the ordered list of its phases. -/
def wrapCommandPhases : List Phase :=
  [.setGlobals, .sweepExpired, .dryNotice, .validate, .runCommand, .complete]

/-- An id survives the sweep exactly when it is stored and the code's own
age guard does not fire on it. -/
theorem mem_storeIds_removeOldReleases (now : Int) (store : Store) (id : String) :
    id ∈ storeIds (removeOldReleases now store) ↔
      id ∈ storeIds store ∧ jsGtNum (now - twoWeeks) (jsNumber id) = false := by
  simp only [storeIds, removeOldReleases, List.mem_map, List.mem_filter]
  constructor
  · rintro ⟨kv, ⟨hmem, hpred⟩, rfl⟩
    exact ⟨⟨kv, hmem, rfl⟩, by simpa using hpred⟩
  · rintro ⟨⟨kv, hmem, rfl⟩, hfalse⟩
    exact ⟨kv, ⟨hmem, by simpa using hfalse⟩, rfl⟩

/-- Claim C8: the expiry sweep deletes exactly the stored records whose id,
read as a millisecond timestamp, lies more than 14 days before now — an id
parsing to timestamp `n` survives the sweep exactly when it was stored and
`n` is not strictly before `now` minus two weeks — the sweep phase runs
before the command phase in `wrapCommand`, and concretely a record 15 days
old is deleted while one 13 days old is retained. -/
theorem removeOldReleases_spec :
    (∀ (now : Int) (store : Store) (id : String) (n : Nat),
      jsNumber id = JSNum.num n →
      (id ∈ storeIds (removeOldReleases now store) ↔
        id ∈ storeIds store ∧ ¬((n : Int) < now - twoWeeks))) ∧
    wrapCommandPhases.indexOf Phase.sweepExpired <
      wrapCommandPhases.indexOf Phase.runCommand ∧
    storeIds (removeOldReleases 1600000000000
      [("1598704000000", Json.null), ("1598876800000", Json.null)]) =
      ["1598876800000"] := by
  refine ⟨?_, by decide, by decide⟩
  intro now store id n hn
  rw [mem_storeIds_removeOldReleases]
  simp [jsGtNum, hn]

/-- The global interface state relevant to error handling: the dry-run flag
and the accumulated error and warning flags. -/
structure CliState where
  dry : Bool
  hasErrors : Bool
  hasWarnings : Bool
deriving DecidableEq

/-- How a step of a command ends: it either continues with the updated
state, or the process exits with a status code. -/
inductive StepResult where
  | ok (s : CliState) : StepResult
  | exited (s : CliState) (code : Nat) : StepResult
deriving DecidableEq

/-- `logError` from `src/utils.ts` (second, current revision): set the
error flag, print the message and the closing summary, and exit the
process with status 1 — unconditionally, with no dry-run check and no
`fatal` parameter. -/
def logErrorStep (s : CliState) : StepResult :=
  .exited { s with hasErrors := true } 1

/-- The git-probe outputs the cut command's precondition checks read:
the current branch, the output of `git log lastTag..HEAD` (new commits
since the last tag), of `git status --porcelain` (uncommitted changes), and
of `git log remote/defaultBranch..HEAD` (commits unpushed from the default
branch). -/
structure CutProbes where
  currentBranch : String
  lastTagLog : String
  statusOutput : String
  unpushedLog : String
deriving DecidableEq

/-- The precondition checks of the cut command in `src/commands/cut.ts`:
the patch-on-default-branch check, then the try-block asserting in order
that the default branch has nothing unpushed (only when on it), that the
working tree is clean, and that there are new commits since the last tag.
Any violation funnels into `logErrorStep`. -/
def cutPreconditionPhase (s : CliState) (relType : ReleaseType)
    (defaultBranch : String) (pr : CutProbes) : StepResult :=
  if relType = ReleaseType.patch ∧ pr.currentBranch = defaultBranch then
    logErrorStep s
  else if (pr.currentBranch = defaultBranch ∧ pr.unpushedLog ≠ "") ∨
      pr.statusOutput ≠ "" ∨ pr.lastTagLog = "" then
    logErrorStep s
  else .ok s

/-- Claim C5 counterexample: in dry-run mode, a dirty working tree — a
violated branch-resolution precondition — makes the cut command exit with
status 1 via `logError` exactly as in normal mode, instead of being
recorded as a warning with execution continuing: `logError` in the current
revision exits unconditionally. -/
theorem cutPrecondition_dry_exits_counterexample :
    cutPreconditionPhase ⟨true, false, false⟩ ReleaseType.train "main"
      ⟨"train-4", "abc123 fix(auth): x", " M src/index.ts", ""⟩ =
      StepResult.exited ⟨true, true, false⟩ 1 := by
  decide

/-- Claim C5 amended: a violated precondition (patch on the default branch,
unpushed default branch, dirty tree, or no new commits since the last tag)
makes the cut command exit with status 1 whether or not dry-run mode is
active; dry-run does not downgrade these checks. -/
theorem cutPrecondition_violation_exits (s : CliState) (relType : ReleaseType)
    (defaultBranch : String) (pr : CutProbes)
    (h : (relType = ReleaseType.patch ∧ pr.currentBranch = defaultBranch) ∨
      (pr.currentBranch = defaultBranch ∧ pr.unpushedLog ≠ "") ∨
      pr.statusOutput ≠ "" ∨ pr.lastTagLog = "") :
    cutPreconditionPhase s relType defaultBranch pr =
      StepResult.exited { s with hasErrors := true } 1 := by
  unfold cutPreconditionPhase logErrorStep
  rcases h with h | h
  · rw [if_pos h]
  · by_cases h0 : relType = ReleaseType.patch ∧ pr.currentBranch = defaultBranch
    · rw [if_pos h0]
    · rw [if_neg h0, if_pos h]

/-- Claim C5 amended witness: a dry run with a dirty working tree exits
with status 1 and the error flag set. -/
theorem cutPrecondition_violation_exits_witness :
    ((ReleaseType.train = ReleaseType.patch ∧ "train-4" = "main") ∨
      ("train-4" = "main" ∧ "" ≠ "") ∨
      " M src/index.ts" ≠ "" ∨ "abc123 fix(auth): x" = "") ∧
    cutPreconditionPhase ⟨true, false, false⟩ ReleaseType.train "main"
      ⟨"train-4", "abc123 fix(auth): x", " M src/index.ts", ""⟩ =
      StepResult.exited ⟨true, true, false⟩ 1 :=
  ⟨by decide,
   cutPrecondition_violation_exits ⟨true, false, false⟩ ReleaseType.train "main"
     ⟨"train-4", "abc123 fix(auth): x", " M src/index.ts", ""⟩ (by decide)⟩

/-- What one `bump` call in `src/commands/cut.ts` leaves behind: whether
`createPackagePath` logged the missing-directory warning, whether the
changelog and version files were written, and the value returned (the
directory name when the package had changes, else null). -/
structure BumpResult where
  warned : Bool
  mutated : Bool
  result : Option String
deriving DecidableEq

/-- `bump` from `src/commands/cut.ts`, parameterized by whether the package
directory exists (the packages root itself is assumed present; its absence
throws before any of this runs) and by the text the scoped `git log`
command returned.  `createPackagePath` warns and yields null for a missing
directory; the commits are classified and summarized; the files are
mutated only when the package path is non-null and the run is not dry; and
the directory is returned as modified exactly when some summary section is
nonempty — regardless of whether the directory exists.  `none` models the
exception `parseCommits` can throw on a malformed line. -/
def bump (directory : String) (dirExists : Bool) (dry : Bool) (log : String) :
    Option BumpResult :=
  match parseCommits log with
  | none => none
  | some commits =>
    let summaryTypes := commitTypesKeys.filter
      (fun ty => commits.any (fun c => c.type == ty))
    some ⟨!dirExists, dirExists && !dry,
          if summaryTypes.isEmpty then none else some directory⟩

/-- Claim C9 counterexample: a package whose directory is missing but whose
scoped commit log is nonempty gets the warning and no file mutation, yet
`bump` still returns the directory name, so the package is included in the
modified-packages result instead of being treated as having no changes. -/
theorem bump_missing_dir_counterexample :
    bump "auth" false false "a1 feat(auth): add x" =
      some ⟨true, false, some "auth"⟩ := by
  decide

/-- Claim C9 amended: a missing package directory records the non-fatal
warning and suppresses every file mutation, but whether the package counts
as modified is decided by the classified commit log alone — the result is
the same as if the directory existed. -/
theorem bump_missing_dir (directory : String) (dry : Bool) (log : String) :
    (∀ br, bump directory false dry log = some br →
      br.warned = true ∧ br.mutated = false) ∧
    Option.map BumpResult.result (bump directory false dry log) =
      Option.map BumpResult.result (bump directory true dry log) := by
  constructor
  · intro br h
    cases hp : parseCommits log with
    | none => simp [bump, hp] at h
    | some commits =>
      simp only [bump, hp, Option.some.injEq] at h
      subst h
      exact ⟨rfl, rfl⟩
  · cases hp : parseCommits log with
    | none => simp [bump, hp]
    | some commits => simp [bump, hp]

/-- Claim C9 amended witness: the missing-directory branch at a concrete
log with one classified commit — warning set, no mutation. -/
theorem bump_missing_dir_witness :
    (BumpResult.mk true false (some "auth")).warned = true ∧
    (BumpResult.mk true false (some "auth")).mutated = false :=
  (bump_missing_dir "auth" false "a1 feat(auth): add x").1
    ⟨true, false, some "auth"⟩ (by decide)

end FxaRelease
